import Mathlib

/-!
Verification development for the quaternion 3D visualizer pipeline
(serial ingestion, multi-format quaternion decoding, complementary
filtering, adaptive rate estimation).

Modelling conventions:
- Bytes are natural numbers (values 0 to 255); byte strings are lists.
- IEEE 754 binary32 words are decoded bit-exactly into a FloatVal:
  a finite rational value, a NaN, or a signed infinity.  Arithmetic on
  decoded values is modelled exactly over the rationals and the reals
  (the real semantics of the floating-point program); rounding of
  individual double-precision operations is not modelled.
- A magnitude test such as 0.1 <= sqrt s <= 2.0 on Python floats is
  False whenever an operand is NaN or infinite, so the source tests are
  modelled as (all components finite) together with the real bound.
- Stateful Python objects become explicit state records; methods become
  functions from state to state.
-/

/-- Result of decoding one IEEE 754 binary32 word: a finite value
(exact rational), NaN, or a signed infinity. -/
inductive FloatVal where
  | finite (q : ℚ)
  | nan
  | posInf
  | negInf
deriving DecidableEq, Repr

/-- True for a finite float value. -/
def FloatVal.isFinite : FloatVal → Bool
  | .finite _ => true
  | _ => false

/-- Rational value of a float; nonfinite values map to 0 and are always
guarded by a finiteness check before use. -/
def FloatVal.toRat : FloatVal → ℚ
  | .finite q => q
  | _ => 0

/-- Raw quaternion candidate as produced by the decoders: four decoded
float components w, x, y, z (mirrors the source Quaternion fields). -/
structure RawQuat where
  w : FloatVal
  x : FloatVal
  y : FloatVal
  z : FloatVal
deriving DecidableEq, Repr

/-- All four components of a candidate are finite (the NaN or infinite
check of the source, negated). -/
def RawQuat.allFinite (q : RawQuat) : Prop :=
  q.w.isFinite = true ∧ q.x.isFinite = true ∧ q.y.isFinite = true ∧ q.z.isFinite = true

instance (q : RawQuat) : Decidable q.allFinite := by
  unfold RawQuat.allFinite; infer_instance

/-- Exact value of w*w + x*x + y*y + z*z as computed by the source on
the decoded components. -/
def RawQuat.magSq (q : RawQuat) : ℚ :=
  q.w.toRat ^ 2 + q.x.toRat ^ 2 + q.y.toRat ^ 2 + q.z.toRat ^ 2

/-- Byte at index i of a byte string (chunk accesses are always in
bounds in the source, which slices fixed-size chunks). -/
def byteAt (c : List ℕ) (i : ℕ) : ℕ := c.getD i 0

/-- 32-bit word assembled from four bytes, least significant first. -/
def word32 (b0 b1 b2 b3 : ℕ) : ℕ :=
  b0 + 256 * b1 + 65536 * b2 + 16777216 * b3

/-- Bit-exact decoding of an IEEE 754 binary32 word (sign, 8 exponent
bits, 23 fraction bits) into a FloatVal. -/
def f32val (word : ℕ) : FloatVal :=
  let sign : ℕ := word / 2 ^ 31 % 2
  let e : ℕ := word / 2 ^ 23 % 256
  let f : ℕ := word % 2 ^ 23
  if e = 255 then
    if f = 0 then (if sign = 1 then .negInf else .posInf) else .nan
  else
    let mag : ℚ :=
      if e = 0 then (f : ℚ) * (2 : ℚ) ^ (-(149 : ℤ))
      else ((2 ^ 23 + f : ℕ) : ℚ) * (2 : ℚ) ^ ((e : ℤ) - 150)
    .finite (if sign = 1 then -mag else mag)

/-- The k-th little-endian float word of a 16-byte chunk. -/
def chunkWordLE (c : List ℕ) (k : ℕ) : ℕ :=
  word32 (byteAt c (4 * k)) (byteAt c (4 * k + 1)) (byteAt c (4 * k + 2)) (byteAt c (4 * k + 3))

/-- The k-th big-endian float word of a 16-byte chunk. -/
def chunkWordBE (c : List ℕ) (k : ℕ) : ℕ :=
  word32 (byteAt c (4 * k + 3)) (byteAt c (4 * k + 2)) (byteAt c (4 * k + 1)) (byteAt c (4 * k))

/-- Candidate from the first interpretation of a binary chunk:
little-endian floats read in (w, x, y, z) order. -/
def leQuat (c : List ℕ) : RawQuat :=
  ⟨f32val (chunkWordLE c 0), f32val (chunkWordLE c 1),
   f32val (chunkWordLE c 2), f32val (chunkWordLE c 3)⟩

/-- Candidate from the second interpretation: big-endian floats read in
(w, x, y, z) order. -/
def beQuat (c : List ℕ) : RawQuat :=
  ⟨f32val (chunkWordBE c 0), f32val (chunkWordBE c 1),
   f32val (chunkWordBE c 2), f32val (chunkWordBE c 3)⟩

/-- Candidate from the third interpretation: the same little-endian
floats, assigned in (x, y, z, w) order. -/
def xyzwQuat (c : List ℕ) : RawQuat :=
  ⟨f32val (chunkWordLE c 3), f32val (chunkWordLE c 0),
   f32val (chunkWordLE c 1), f32val (chunkWordLE c 2)⟩

/-- Plausibility test of the binary parser: the magnitude
sqrt(w*w + x*x + y*y + z*z) lies in the closed range 0.1 to 2.0.  On
Python floats the comparison is False when any component is NaN or
infinite, hence the finiteness conjunct. -/
def chunkMagOK (q : RawQuat) : Prop :=
  q.allFinite ∧ (1 / 10 : ℝ) ≤ Real.sqrt ((q.magSq : ℚ) : ℝ) ∧ Real.sqrt ((q.magSq : ℚ) : ℝ) ≤ 2

/-- The sum of component squares is nonnegative. -/
theorem RawQuat.magSq_nonneg (q : RawQuat) : 0 ≤ q.magSq := by
  unfold RawQuat.magSq; positivity

/-- The square-root magnitude window is equivalent to a rational window
on the squared magnitude, which makes the test decidable. -/
theorem chunkMagOK_iff (q : RawQuat) :
    chunkMagOK q ↔ q.allFinite ∧ (1 / 100 : ℚ) ≤ q.magSq ∧ q.magSq ≤ 4 := by
  have hs : (0 : ℝ) ≤ ((q.magSq : ℚ) : ℝ) := by
    exact_mod_cast q.magSq_nonneg
  unfold chunkMagOK
  constructor
  · rintro ⟨hf, h1, h2⟩
    refine ⟨hf, ?_, ?_⟩
    · have := (Real.le_sqrt' (by norm_num : (0 : ℝ) < 1 / 10)).mp h1
      have h100 : ((1 / 100 : ℚ) : ℝ) ≤ ((q.magSq : ℚ) : ℝ) := by
        push_cast
        nlinarith [this]
      exact_mod_cast h100
    · have := (Real.sqrt_le_iff.mp h2).2
      have h4 : ((q.magSq : ℚ) : ℝ) ≤ ((4 : ℚ) : ℝ) := by
        push_cast
        nlinarith [this]
      exact_mod_cast h4
  · rintro ⟨hf, h1, h2⟩
    refine ⟨hf, ?_, ?_⟩
    · rw [Real.le_sqrt' (by norm_num : (0 : ℝ) < 1 / 10)]
      have : ((1 / 100 : ℚ) : ℝ) ≤ ((q.magSq : ℚ) : ℝ) := by exact_mod_cast h1
      push_cast at this ⊢
      nlinarith [this]
    · rw [Real.sqrt_le_iff]
      have : ((q.magSq : ℚ) : ℝ) ≤ ((4 : ℚ) : ℝ) := by exact_mod_cast h2
      push_cast at this ⊢
      constructor
      · norm_num
      · nlinarith [this]

instance (q : RawQuat) : Decidable (chunkMagOK q) :=
  decidable_of_iff' _ (chunkMagOK_iff q)

/-- One chunk of the binary parser: try little-endian (w,x,y,z), then
big-endian (w,x,y,z), then little-endian (x,y,z,w); the first
interpretation whose magnitude passes the plausibility test is the
candidate, otherwise the chunk yields nothing. -/
def parse_binary_chunk (c : List ℕ) : Option RawQuat :=
  if chunkMagOK (leQuat c) then some (leQuat c)
  else if chunkMagOK (beQuat c) then some (beQuat c)
  else if chunkMagOK (xyzwQuat c) then some (xyzwQuat c)
  else none

/-- Sixteen-byte chunk whose little-endian reading is a tiny subnormal
float (magnitude far below 0.1) but whose big-endian reading is the
unit quaternion (1, 0, 0, 0). -/
def beOnlyChunk : List ℕ :=
  [63, 128, 0, 0, 0, 0, 0, 0, 0, 0, 0, 0, 0, 0, 0, 0]

theorem beOnlyChunk_le_not_ok : ¬ chunkMagOK (leQuat beOnlyChunk) := by
  rw [chunkMagOK_iff]
  norm_num [leQuat, beOnlyChunk, RawQuat.magSq, RawQuat.allFinite, chunkWordLE, word32,
    byteAt, f32val, FloatVal.toRat, FloatVal.isFinite]

theorem beOnlyChunk_be_ok : chunkMagOK (beQuat beOnlyChunk) := by
  rw [chunkMagOK_iff]
  norm_num [beQuat, beOnlyChunk, RawQuat.magSq, RawQuat.allFinite, chunkWordBE, word32,
    byteAt, f32val, FloatVal.toRat, FloatVal.isFinite]

/-- Claim C3: the binary decoder tries the three interpretations in the
order little-endian (w,x,y,z), big-endian (w,x,y,z), little-endian
(x,y,z,w), and the first one whose magnitude lies in the range 0.1 to
2.0 wins; in particular a chunk failing the little-endian test but
passing the big-endian test is accepted under the big-endian
interpretation. -/
theorem binary_endianness_fallback (c : List ℕ) :
    (¬ chunkMagOK (leQuat c) → chunkMagOK (beQuat c) →
      parse_binary_chunk c = some (beQuat c)) ∧
    (chunkMagOK (leQuat c) → parse_binary_chunk c = some (leQuat c)) ∧
    (¬ chunkMagOK (leQuat c) → ¬ chunkMagOK (beQuat c) → chunkMagOK (xyzwQuat c) →
      parse_binary_chunk c = some (xyzwQuat c)) ∧
    (¬ chunkMagOK (leQuat c) → ¬ chunkMagOK (beQuat c) → ¬ chunkMagOK (xyzwQuat c) →
      parse_binary_chunk c = none) := by
  unfold parse_binary_chunk
  refine ⟨?_, ?_, ?_, ?_⟩ <;> intros <;> simp_all

/-- Witness for C3: a concrete 16-byte chunk that is a tiny subnormal
under little-endian reading and the unit quaternion under big-endian
reading is accepted under the big-endian interpretation. -/
theorem binary_endianness_fallback_witness :
    ¬ chunkMagOK (leQuat beOnlyChunk) ∧ chunkMagOK (beQuat beOnlyChunk) ∧
    parse_binary_chunk beOnlyChunk = some (beQuat beOnlyChunk) :=
  ⟨beOnlyChunk_le_not_ok, beOnlyChunk_be_ok,
    (binary_endianness_fallback beOnlyChunk).1 beOnlyChunk_le_not_ok beOnlyChunk_be_ok⟩

/-- Real-valued quaternion, the value type used once candidates enter
normalization and filtering (real semantics of the float program). -/
structure QuatR where
  w : ℝ
  x : ℝ
  y : ℝ
  z : ℝ

/-- Sum of component squares of a real quaternion. -/
noncomputable def magSqR (q : QuatR) : ℝ := q.w ^ 2 + q.x ^ 2 + q.y ^ 2 + q.z ^ 2

/-- Real quaternion carrying the rational values of a finite candidate
(used only after validation, which guarantees finiteness). -/
noncomputable def toQuatR (q : RawQuat) : QuatR :=
  ⟨(q.w.toRat : ℝ), (q.x.toRat : ℝ), (q.y.toRat : ℝ), (q.z.toRat : ℝ)⟩

/-- Source Quaternion.normalize: divide the components by the norm when
it is positive, otherwise leave the quaternion unchanged. -/
noncomputable def quat_normalize (q : QuatR) : QuatR :=
  let n := Real.sqrt (magSqR q)
  if 0 < n then ⟨q.w / n, q.x / n, q.y / n, q.z / n⟩ else q

/-- Source QuaternionProcessor validate: accept when no component is
NaN or infinite and the norm deviates from 1.0 by at most the tolerance
0.1 (the source rejects on strict deviation greater than 0.1). -/
def validate_quaternion (q : RawQuat) : Prop :=
  q.allFinite ∧ |Real.sqrt ((q.magSq : ℚ) : ℝ) - 1| ≤ 1 / 10

/-- The validation window on the norm is equivalent to a rational
window on the squared magnitude, which makes validation decidable. -/
theorem validate_quaternion_iff (q : RawQuat) :
    validate_quaternion q ↔
      q.allFinite ∧ (81 / 100 : ℚ) ≤ q.magSq ∧ q.magSq ≤ 121 / 100 := by
  have hs : (0 : ℝ) ≤ ((q.magSq : ℚ) : ℝ) := by exact_mod_cast q.magSq_nonneg
  unfold validate_quaternion
  rw [abs_le]
  constructor
  · rintro ⟨hf, h1, h2⟩
    have h910 : (9 / 10 : ℝ) ≤ Real.sqrt ((q.magSq : ℚ) : ℝ) := by linarith
    have h1110 : Real.sqrt ((q.magSq : ℚ) : ℝ) ≤ 11 / 10 := by linarith
    have hlo := (Real.le_sqrt' (by norm_num : (0 : ℝ) < 9 / 10)).mp h910
    have hhi := (Real.sqrt_le_iff.mp h1110).2
    refine ⟨hf, ?_, ?_⟩
    · exact_mod_cast (by push_cast at hlo ⊢; nlinarith [hlo] :
        ((81 / 100 : ℚ) : ℝ) ≤ ((q.magSq : ℚ) : ℝ))
    · exact_mod_cast (by push_cast at hhi ⊢; nlinarith [hhi] :
        ((q.magSq : ℚ) : ℝ) ≤ ((121 / 100 : ℚ) : ℝ))
  · rintro ⟨hf, h1, h2⟩
    have h1r : ((81 / 100 : ℚ) : ℝ) ≤ ((q.magSq : ℚ) : ℝ) := by exact_mod_cast h1
    have h2r : ((q.magSq : ℚ) : ℝ) ≤ ((121 / 100 : ℚ) : ℝ) := by exact_mod_cast h2
    push_cast at h1r h2r
    have hlo : (9 / 10 : ℝ) ≤ Real.sqrt ((q.magSq : ℚ) : ℝ) := by
      rw [Real.le_sqrt' (by norm_num : (0 : ℝ) < 9 / 10)]
      nlinarith [h1r]
    have hhi : Real.sqrt ((q.magSq : ℚ) : ℝ) ≤ 11 / 10 := by
      rw [Real.sqrt_le_iff]
      constructor
      · norm_num
      · nlinarith [h2r]
    exact ⟨hf, by linarith, by linarith⟩

instance (q : RawQuat) : Decidable (validate_quaternion q) :=
  decidable_of_iff' _ (validate_quaternion_iff q)

/-- Output data point built by process_raw_data: the filtered
quaternion and the normalized raw quaternion.  The timestamp and the
Euler-angle and rotation-matrix display fields of the source dict are
pure functions of these quaternions and are not modelled. -/
structure Sample where
  quaternion : QuatR
  quaternionRaw : QuatR

/-- Running packet statistics of the processor. -/
structure ProcStats where
  totalPackets : ℕ
  validPackets : ℕ
  invalidPackets : ℕ
deriving DecidableEq, Repr

/-- Loop body of process_raw_data over the decoded candidates: a
candidate failing validation is dropped and counted invalid; an
accepted candidate is normalized, passed through the (stateful) filter
step, and emitted as a Sample.  The filter is an explicit
state-threading function parameter. -/
noncomputable def processCandidates {σ : Type} (filt : σ → QuatR → QuatR × σ) :
    σ → List RawQuat → List Sample × σ × ℕ × ℕ
  | s, [] => ([], s, 0, 0)
  | s, c :: rest =>
    if validate_quaternion c then
      let nq := quat_normalize (toQuatR c)
      let (fq, s1) := filt s nq
      let (ss, s2, v, i) := processCandidates filt s1 rest
      (⟨fq, nq⟩ :: ss, s2, v + 1, i)
    else
      let (ss, s1, v, i) := processCandidates filt s rest
      (ss, s1, v, i + 1)

/-- Source process_raw_data: decode the raw bytes with the current
format parser, validate, normalize and filter each candidate, and
update the packet statistics (total is increased by the number of
decoded candidates after the loop). -/
noncomputable def process_raw_data {σ : Type} (parse : List ℕ → List RawQuat)
    (filt : σ → QuatR → QuatR × σ) (s : σ) (st : ProcStats) (data : List ℕ) :
    List Sample × σ × ProcStats :=
  let cands := parse data
  let (ss, s1, v, i) := processCandidates filt s cands
  (ss, s1, ⟨st.totalPackets + cands.length, st.validPackets + v, st.invalidPackets + i⟩)

/-- Reference chain: apply the filter step to each quaternion of a list
in order, building a Sample from each output and its input. -/
noncomputable def runFilter {σ : Type} (filt : σ → QuatR → QuatR × σ) :
    σ → List QuatR → List Sample × σ
  | s, [] => ([], s)
  | s, q :: rest =>
    let (fq, s1) := filt s q
    let (ss, s2) := runFilter filt s1 rest
    (⟨fq, q⟩ :: ss, s2)

/-- Normalized inputs of the candidates that pass validation. -/
noncomputable def validInputs (cands : List RawQuat) : List QuatR :=
  (cands.filter fun c => decide (validate_quaternion c)).map fun c => quat_normalize (toQuatR c)

/-- Normalizing a quaternion with positive squared magnitude yields an
exactly unit quaternion. -/
theorem magSqR_quat_normalize {q : QuatR} (h : 0 < magSqR q) :
    magSqR (quat_normalize q) = 1 := by
  have hn : 0 < Real.sqrt (magSqR q) := Real.sqrt_pos.mpr h
  have hsq : Real.sqrt (magSqR q) ^ 2 = magSqR q := Real.sq_sqrt h.le
  unfold quat_normalize
  rw [if_pos hn]
  unfold magSqR at *
  field_simp

/-- A candidate passing validation has positive squared magnitude. -/
theorem validate_magSqR_pos {c : RawQuat} (h : validate_quaternion c) :
    0 < magSqR (toQuatR c) := by
  obtain ⟨-, h1, -⟩ := (validate_quaternion_iff c).mp h
  have : ((81 / 100 : ℚ) : ℝ) ≤ ((c.magSq : ℚ) : ℝ) := by exact_mod_cast h1
  have hm : magSqR (toQuatR c) = ((c.magSq : ℚ) : ℝ) := by
    unfold magSqR toQuatR RawQuat.magSq
    push_cast
    ring
  rw [hm]
  push_cast at this ⊢
  linarith

/-- Candidate processing is the filter chain over exactly the
normalized valid candidates. -/
theorem processCandidates_eq_runFilter {σ : Type} (filt : σ → QuatR → QuatR × σ)
    (s : σ) (cands : List RawQuat) :
    (processCandidates filt s cands).1 = (runFilter filt s (validInputs cands)).1 ∧
    (processCandidates filt s cands).2.1 = (runFilter filt s (validInputs cands)).2 := by
  induction cands generalizing s with
  | nil => simp [processCandidates, validInputs, runFilter]
  | cons c rest ih =>
    by_cases hc : validate_quaternion c
    · have hv : validInputs (c :: rest) =
          quat_normalize (toQuatR c) :: validInputs rest := by
        simp [validInputs, hc]
      rw [hv]
      simp only [processCandidates, runFilter, if_pos hc]
      obtain ⟨ih1, ih2⟩ := ih ((filt s (quat_normalize (toQuatR c))).2)
      simp [ih1, ih2]
    · have hv : validInputs (c :: rest) = validInputs rest := by
        simp [validInputs, hc]
      rw [hv]
      simp only [processCandidates, if_neg hc]
      obtain ⟨ih1, ih2⟩ := ih s
      simp [ih1, ih2]

/-- Claim C1: process_raw_data drops every decoded candidate with a
NaN or infinite component or with magnitude deviating from 1.0 by more
than 0.1, never passing it to the complementary filter; every candidate
that passes validation is normalized to exactly unit magnitude before
its output Sample is built. -/
theorem process_raw_data_validates_and_normalizes {σ : Type}
    (parse : List ℕ → List RawQuat) (filt : σ → QuatR → QuatR × σ)
    (s : σ) (st : ProcStats) (data : List ℕ) :
    ((process_raw_data parse filt s st data).1 =
        (runFilter filt s (validInputs (parse data))).1 ∧
      (process_raw_data parse filt s st data).2.1 =
        (runFilter filt s (validInputs (parse data))).2) ∧
    (∀ c, validate_quaternion c → magSqR (quat_normalize (toQuatR c)) = 1) ∧
    (∀ smp, smp ∈ (process_raw_data parse filt s st data).1 →
      smp.quaternionRaw ∈ validInputs (parse data)) := by
  obtain ⟨h1, h2⟩ := processCandidates_eq_runFilter filt s (parse data)
  have hmain : (process_raw_data parse filt s st data).1 =
      (runFilter filt s (validInputs (parse data))).1 ∧
      (process_raw_data parse filt s st data).2.1 =
      (runFilter filt s (validInputs (parse data))).2 := by
    unfold process_raw_data
    exact ⟨h1, h2⟩
  refine ⟨hmain, fun c hc => magSqR_quat_normalize (validate_magSqR_pos hc), fun smp hmem => ?_⟩
  rw [hmain.1] at hmem
  clear hmain h1 h2
  generalize validInputs (parse data) = qs at hmem
  induction qs generalizing s with
  | nil => simp [runFilter] at hmem
  | cons q rest ih =>
    simp only [runFilter] at hmem
    rcases List.mem_cons.mp hmem with hl | hr
    · simp [hl]
    · exact List.mem_cons_of_mem _ (ih _ hr)

/-- Witness for C1: the unit candidate (1,0,0,0) passes validation and
its normalization has exactly unit magnitude. -/
theorem process_raw_data_validates_witness :
    validate_quaternion ⟨.finite 1, .finite 0, .finite 0, .finite 0⟩ ∧
    magSqR (quat_normalize (toQuatR ⟨.finite 1, .finite 0, .finite 0, .finite 0⟩)) = 1 := by
  have hv : validate_quaternion ⟨.finite 1, .finite 0, .finite 0, .finite 0⟩ := by
    rw [validate_quaternion_iff]
    norm_num [RawQuat.allFinite, RawQuat.magSq, FloatVal.isFinite, FloatVal.toRat]
  exact ⟨hv, (process_raw_data_validates_and_normalizes (σ := Unit)
    (fun _ => []) (fun u q => (q, u)) () ⟨0, 0, 0⟩ []).2.1 _ hv⟩

/-- Split a byte string into consecutive 20-byte packets; a trailing
fragment shorter than 20 bytes is dropped. -/
def chunks20 (l : List ℕ) : List (List ℕ) :=
  if _h : l.length < 20 then []
  else l.take 20 :: chunks20 (l.drop 20)
termination_by l.length
decreasing_by
  simp only [List.length_drop]
  omega

/-- Custom-format parser: 20-byte packets, a 2-byte little-endian magic
header 0xAA55 (decimal 43605), 16 bytes of little-endian floats in
(w,x,y,z) order, and a 2-byte trailing checksum that the source reads
but never validates.  A packet whose header differs from the magic is
skipped and contributes no candidate. -/
def parse_custom_quaternion (data : List ℕ) : List RawQuat :=
  (chunks20 data).filterMap fun pkt =>
    if byteAt pkt 0 + 256 * byteAt pkt 1 = 43605 then
      some ⟨f32val (word32 (byteAt pkt 2) (byteAt pkt 3) (byteAt pkt 4) (byteAt pkt 5)),
            f32val (word32 (byteAt pkt 6) (byteAt pkt 7) (byteAt pkt 8) (byteAt pkt 9)),
            f32val (word32 (byteAt pkt 10) (byteAt pkt 11) (byteAt pkt 12) (byteAt pkt 13)),
            f32val (word32 (byteAt pkt 14) (byteAt pkt 15) (byteAt pkt 16) (byteAt pkt 17))⟩
    else none

/-- Twenty zero bytes: a malformed custom packet (header 0, not the
magic 0xAA55). -/
def zeros20 : List ℕ := List.replicate 20 0

/-- Counterexample for C5: processing one malformed custom packet
leaves the invalid-packet counter unchanged (it remains 0), so the
counter is not incremented by one per malformed packet as claimed;
only candidates that fail validation increment it. -/
theorem custom_bad_header_no_invalid_increment :
    parse_custom_quaternion zeros20 = [] ∧
    (process_raw_data parse_custom_quaternion (fun (u : Unit) q => (q, u)) ()
        ⟨0, 0, 0⟩ zeros20).2.2.invalidPackets ≠ 0 + 1 := by
  have hparse : parse_custom_quaternion zeros20 = [] := by
    have hchunks : chunks20 zeros20 = [zeros20] := by
      rw [chunks20]
      simp [zeros20]
      rw [chunks20]
      simp
    unfold parse_custom_quaternion
    rw [hchunks]
    simp [zeros20, byteAt]
  refine ⟨hparse, ?_⟩
  unfold process_raw_data
  rw [hparse]
  simp [processCandidates]

/-- Claim C5 (amended): a 20-byte custom packet whose header differs
from the magic yields no candidate, and processing it leaves the
sample list, the filter state and all packet counters unchanged. -/
theorem custom_bad_header_dropped (pkt : List ℕ) (hlen : pkt.length = 20)
    (hhdr : byteAt pkt 0 + 256 * byteAt pkt 1 ≠ 43605) :
    parse_custom_quaternion pkt = [] ∧
    ∀ (σ : Type) (filt : σ → QuatR → QuatR × σ) (s : σ) (st : ProcStats),
      process_raw_data parse_custom_quaternion filt s st pkt = ([], s, st) := by
  have hchunks : chunks20 pkt = [pkt] := by
    rw [chunks20]
    simp [hlen]
    rw [chunks20]
    simp [hlen]
  have hparse : parse_custom_quaternion pkt = [] := by
    unfold parse_custom_quaternion
    rw [hchunks]
    simp [hhdr]
  refine ⟨hparse, fun σ filt s st => ?_⟩
  unfold process_raw_data
  rw [hparse]
  cases st
  simp [processCandidates]

/-- Witness for the amended C5 at the concrete all-zero packet with
nonzero starting counters. -/
theorem custom_bad_header_dropped_witness :
    zeros20.length = 20 ∧ byteAt zeros20 0 + 256 * byteAt zeros20 1 ≠ 43605 ∧
    parse_custom_quaternion zeros20 = [] ∧
    process_raw_data parse_custom_quaternion (fun (u : Unit) q => (q, u)) ()
      ⟨3, 2, 1⟩ zeros20 = ([], (), ⟨3, 2, 1⟩) := by
  have hlen : zeros20.length = 20 := by decide
  have hhdr : byteAt zeros20 0 + 256 * byteAt zeros20 1 ≠ 43605 := by decide
  obtain ⟨h1, h2⟩ := custom_bad_header_dropped zeros20 hlen hhdr
  exact ⟨hlen, hhdr, h1, h2 Unit (fun u q => (q, u)) () ⟨3, 2, 1⟩⟩

/-- Frame delimiter of the serial buffer drain: newline or carriage
return. -/
def isDelim (b : ℕ) : Bool := b == 10 || b == 13

/-- Index of the last delimiter byte of the buffer, mirroring the
maximum of the two rfind calls of the source. -/
def lastDelimIdx : List ℕ → Option ℕ
  | [] => none
  | b :: t =>
    match lastDelimIdx t with
    | some i => some (i + 1)
    | none => if isDelim b then some 0 else none

/-- The buffer contains a delimiter (the membership test of the
source). -/
def containsDelim (l : List ℕ) : Bool := l.any isDelim

/-- One pass of SerialManager process buffer: when the buffer holds a
delimiter, the slice up to and including the last delimiter is emitted
as one batch and removed; otherwise, a buffer longer than 1000 bytes is
force-flushed whole; otherwise nothing happens.  The returned pair is
(emitted batch if any, buffer afterwards). -/
def process_buffer (buf : List ℕ) : Option (List ℕ) × List ℕ :=
  if buf.length = 0 then (none, buf)
  else
    match lastDelimIdx buf with
    | some i => (some (buf.take (i + 1)), buf.drop (i + 1))
    | none => if 1000 < buf.length then (some buf, []) else (none, buf)

/-- The buffer contains a delimiter exactly when a last-delimiter index
exists. -/
theorem containsDelim_iff_lastDelimIdx (l : List ℕ) :
    containsDelim l = true ↔ (lastDelimIdx l).isSome := by
  induction l with
  | nil => simp [containsDelim, lastDelimIdx]
  | cons b t ih =>
    simp only [containsDelim, List.any_cons, Bool.or_eq_true] at ih ⊢
    simp only [lastDelimIdx]
    cases h : lastDelimIdx t with
    | some i =>
      simp only [Option.isSome_some, iff_true]
      right
      rw [ih, h]
      rfl
    | none =>
      by_cases hb : isDelim b = true
      · simp [hb]
      · rw [h] at ih
        simp [hb, ih]

/-- Properties of the last-delimiter index: it is in range, points at a
delimiter, and nothing after it is a delimiter. -/
theorem lastDelimIdx_spec (l : List ℕ) (i : ℕ) (h : lastDelimIdx l = some i) :
    i < l.length ∧ isDelim (l.getD i 0) = true ∧ containsDelim (l.drop (i + 1)) = false := by
  induction l generalizing i with
  | nil => simp [lastDelimIdx] at h
  | cons b t ih =>
    simp only [lastDelimIdx] at h
    cases ht : lastDelimIdx t with
    | some j =>
      rw [ht] at h
      injection h with h
      subst h
      obtain ⟨h1, h2, h3⟩ := ih j ht
      refine ⟨by simpa using Nat.succ_lt_succ h1, by simpa using h2, by simpa using h3⟩
    | none =>
      rw [ht] at h
      by_cases hb : isDelim b
      · rw [if_pos hb] at h
        injection h with h
        subst h
        refine ⟨by simp, by simpa using hb, ?_⟩
        have := (containsDelim_iff_lastDelimIdx t).not
        simp only [List.drop_succ_cons, List.drop_zero]
        rw [ht] at this
        simpa using fun hcd => this.mpr (by simp) hcd
      · rw [if_neg hb] at h
        cases h

/-- The last element of a take-prefix ending at index i is the element
at index i. -/
theorem getLast?_take (l : List ℕ) (i : ℕ) (h : i < l.length) :
    (l.take (i + 1)).getLast? = some (l.getD i 0) := by
  induction l generalizing i with
  | nil => simp at h
  | cons b t ih =>
    cases i with
    | zero => simp
    | succ j =>
      have hj : j < t.length := by simpa using h
      cases htj : t.take (j + 1) with
      | nil =>
        exfalso
        have hlt : (t.take (j + 1)).length = min (j + 1) t.length := by simp
        rw [htj] at hlt
        simp at hlt
        omega
      | cons c u =>
        rw [List.take_succ_cons, htj, List.getLast?_cons_cons, ← htj, ih j hj]
        simp

/-- Claim C7: one pass of the buffer drain.  When the buffer holds a
delimiter it emits exactly the prefix ending at the last delimiter
(the batch ends in a delimiter and the remainder holds none) and keeps
exactly the remainder; with no delimiter, a buffer longer than 1000
bytes is flushed whole and the buffer becomes empty; otherwise the
buffer is unchanged and nothing is emitted. -/
theorem process_buffer_spec (buf : List ℕ) :
    (containsDelim buf = true →
      ∃ pre rest, process_buffer buf = (some pre, rest) ∧
        buf = pre ++ rest ∧ pre ≠ [] ∧
        (∃ d, pre.getLast? = some d ∧ isDelim d = true) ∧
        containsDelim rest = false) ∧
    (containsDelim buf = false → 1000 < buf.length → process_buffer buf = (some buf, [])) ∧
    (containsDelim buf = false → buf.length ≤ 1000 → process_buffer buf = (none, buf)) := by
  refine ⟨fun hcd => ?_, fun hcd hlen => ?_, fun hcd hlen => ?_⟩
  · obtain ⟨i, hi⟩ := Option.isSome_iff_exists.mp ((containsDelim_iff_lastDelimIdx buf).mp hcd)
    obtain ⟨h1, h2, h3⟩ := lastDelimIdx_spec buf i hi
    have hne : buf.length ≠ 0 := by
      intro h0
      rw [List.length_eq_zero] at h0
      subst h0
      simp [containsDelim] at hcd
    refine ⟨buf.take (i + 1), buf.drop (i + 1), ?_, ?_, ?_, ?_, h3⟩
    · unfold process_buffer
      rw [if_neg hne, hi]
    · exact (List.take_append_drop (i + 1) buf).symm
    · intro hempty
      have : (buf.take (i + 1)).length = min (i + 1) buf.length := by simp
      rw [hempty] at this
      simp at this
      omega
    · exact ⟨buf.getD i 0, getLast?_take buf i h1, h2⟩
  · have hne : buf.length ≠ 0 := by omega
    have hnone : lastDelimIdx buf = none := by
      cases hl : lastDelimIdx buf with
      | none => rfl
      | some i =>
        exfalso
        have := (containsDelim_iff_lastDelimIdx buf).not.mp (by simp [hcd])
        rw [hl] at this
        simp at this
    unfold process_buffer
    rw [if_neg hne, hnone]
    simp [hlen]
  · by_cases hne : buf.length = 0
    · unfold process_buffer
      rw [if_pos hne]
    · have hnone : lastDelimIdx buf = none := by
        cases hl : lastDelimIdx buf with
        | none => rfl
        | some i =>
          exfalso
          have := (containsDelim_iff_lastDelimIdx buf).not.mp (by simp [hcd])
          rw [hl] at this
          simp at this
      unfold process_buffer
      rw [if_neg hne, hnone]
      have : ¬ 1000 < buf.length := by omega
      simp [this]

/-- Witness for C7 on the concrete buffer [49, 10, 50]: the batch
[49, 10] is emitted and the delimiter-free remainder [50] stays. -/
theorem process_buffer_spec_witness :
    containsDelim [49, 10, 50] = true ∧
    (∃ pre rest, process_buffer [49, 10, 50] = (some pre, rest) ∧
      [49, 10, 50] = pre ++ rest ∧ pre ≠ [] ∧
      (∃ d, pre.getLast? = some d ∧ isDelim d = true) ∧
      containsDelim rest = false) :=
  ⟨by decide, (process_buffer_spec [49, 10, 50]).1 (by decide)⟩

/-- Last n elements of a list (Python negative slicing). -/
def lastN {α : Type} (n : ℕ) (l : List α) : List α := l.drop (l.length - n)

/-- Differences of consecutive elements of a list. -/
def pairDiffs {α β : Type} (f : α → α → β) : List α → List β
  | a :: b :: t => f a b :: pairDiffs f (b :: t)
  | _ => []

/-- Source _detect_data_rate: with at least 10 recorded timestamps,
take the most recent 50, keep consecutive intervals inside 1ms to 1s,
and return the reciprocal of their average (0 when undefined). -/
def detect_data_rate (ts : List ℚ) : ℚ :=
  if ts.length < 10 then 0
  else
    let recent := lastN 50 ts
    if recent.length < 2 then 0
    else
      let intervals := (pairDiffs (fun a b => b - a) recent).filter
        (fun i => decide ((1 / 1000 : ℚ) ≤ i) && decide (i ≤ 1))
      if intervals.isEmpty then 0
      else
        let avg := intervals.sum / intervals.length
        if 0 < avg then 1 / avg else 0

/-- Adaptive rate state of the visualizer. -/
structure RateState where
  dataTimestamps : List ℚ
  detectedDataRate : ℚ
  targetRenderRate : ℚ
  interpolationFactor : ℚ
  lastRateUpdate : ℚ
deriving DecidableEq, Repr

/-- Source _update_adaptive_parameters: every 2 seconds, re-detect the
rate; when positive, blend it into the running estimate (exponential
smoothing with weight 0.3, or adopt it outright the first time), set
the target render rate to 2.5 times the estimate, and pick the
interpolation factor by the four-tier step function. -/
def update_adaptive_parameters (st : RateState) (now : ℚ) : RateState :=
  if 2 ≤ now - st.lastRateUpdate then
    let st1 := { st with lastRateUpdate := now }
    let n := detect_data_rate st.dataTimestamps
    if 0 < n then
      let d := if st.detectedDataRate = 0 then n else 0.3 * n + 0.7 * st.detectedDataRate
      { st1 with
        detectedDataRate := d,
        targetRenderRate := d * 2.5,
        interpolationFactor :=
          if 200 ≤ d then 0.08 else if 100 ≤ d then 0.12 else if 50 ≤ d then 0.18 else 0.25 }
    else st1
  else st

/-- Arrival timestamps starting at t0 with constant spacing d
(test-input generator for the rate-estimator property). -/
def constSpaced (t0 d : ℚ) : ℕ → List ℚ
  | 0 => []
  | n + 1 => t0 :: constSpaced (t0 + d) d n

/-- Length of a constant-spacing arrival list. -/
theorem constSpaced_length (t0 d : ℚ) (n : ℕ) : (constSpaced t0 d n).length = n := by
  induction n generalizing t0 with
  | zero => rfl
  | succ m ih => simp [constSpaced, ih]

/-- Consecutive differences of a constant-spacing list are constant. -/
theorem pairDiffs_constSpaced (t0 d : ℚ) (n : ℕ) :
    pairDiffs (fun a b => b - a) (constSpaced t0 d (n + 1)) = List.replicate n d := by
  induction n generalizing t0 with
  | zero => simp [constSpaced, pairDiffs]
  | succ m ih =>
    have hh : constSpaced t0 d (m + 2) = t0 :: (t0 + d) :: constSpaced (t0 + d + d) d m := by
      simp [constSpaced]
    rw [hh]
    have hh2 : constSpaced (t0 + d) d (m + 1) = (t0 + d) :: constSpaced (t0 + d + d) d m := by
      simp [constSpaced]
    have := ih (t0 + d)
    rw [hh2] at this
    simp only [pairDiffs] at this ⊢
    rw [this]
    simp [List.replicate_succ]

/-- Fifty arrivals spaced exactly 10 ms apart are detected as exactly
100 Hz. -/
theorem detect_data_rate_100 (t0 : ℚ) :
    detect_data_rate (constSpaced t0 (1 / 100) 50) = 100 := by
  have hlen : (constSpaced t0 (1 / 100) 50).length = 50 := constSpaced_length t0 _ 50
  have hrec : lastN 50 (constSpaced t0 (1 / 100) 50) = constSpaced t0 (1 / 100) 50 := by
    unfold lastN
    rw [hlen]
    simp
  have hdiffs : pairDiffs (fun a b => b - a) (constSpaced t0 (1 / 100) 50) =
      List.replicate 49 (1 / 100) := pairDiffs_constSpaced t0 (1 / 100) 49
  have hfilter : (List.replicate 49 ((1 : ℚ) / 100)).filter
      (fun i => decide ((1 / 1000 : ℚ) ≤ i) && decide (i ≤ 1)) =
      List.replicate 49 ((1 : ℚ) / 100) := by
    rw [List.filter_eq_self]
    intro a ha
    rw [List.eq_of_mem_replicate ha]
    norm_num
  have hsum : (List.replicate 49 ((1 : ℚ) / 100)).sum = 49 / 100 := by
    rw [List.sum_replicate]
    norm_num
  have hlen49 : (List.replicate 49 ((1 : ℚ) / 100)).length = 49 := by simp
  unfold detect_data_rate
  simp only [hlen, hrec, hdiffs, hfilter, hsum, hlen49]
  norm_num

/-- Claim C6: fifty arrivals spaced exactly 10 ms apart yield a
detected rate within 1 percent of 100 Hz and an interpolation factor of
0.12; and in general, whenever an update fires with a positive detected
rate, the target render rate becomes 2.5 times the smoothed rate and
the interpolation factor is the four-tier step function of it. -/
theorem adaptive_rate_estimation :
    (∀ t0 : ℚ, detect_data_rate (constSpaced t0 (1 / 100) 50) = 100 ∧
      |detect_data_rate (constSpaced t0 (1 / 100) 50) - 100| ≤ 1) ∧
    (∀ t0 : ℚ,
      (update_adaptive_parameters ⟨constSpaced t0 (1 / 100) 50, 0, 0, 0.15, 0⟩ 2).interpolationFactor
        = 0.12) ∧
    (∀ (st : RateState) (now : ℚ), 2 ≤ now - st.lastRateUpdate →
      0 < detect_data_rate st.dataTimestamps →
      (update_adaptive_parameters st now).targetRenderRate =
        (update_adaptive_parameters st now).detectedDataRate * 2.5 ∧
      (update_adaptive_parameters st now).interpolationFactor =
        (if 200 ≤ (update_adaptive_parameters st now).detectedDataRate then (0.08 : ℚ)
         else if 100 ≤ (update_adaptive_parameters st now).detectedDataRate then 0.12
         else if 50 ≤ (update_adaptive_parameters st now).detectedDataRate then 0.18
         else 0.25)) := by
  refine ⟨fun t0 => ⟨detect_data_rate_100 t0, by rw [detect_data_rate_100 t0]; norm_num⟩,
    fun t0 => ?_, fun st now h1 h2 => ?_⟩
  · unfold update_adaptive_parameters
    rw [detect_data_rate_100 t0]
    norm_num
  · unfold update_adaptive_parameters
    rw [if_pos h1, if_pos h2]
    exact ⟨rfl, rfl⟩

/-- Witness for C6 at t0 = 0: the update fires (2 seconds elapsed), the
detected rate is positive, and the published target rate is 2.5 times
the smoothed rate. -/
theorem adaptive_rate_estimation_witness :
    (2 : ℚ) ≤ 2 - (0 : ℚ) ∧
    0 < detect_data_rate (constSpaced 0 (1 / 100) 50) ∧
    (update_adaptive_parameters ⟨constSpaced 0 (1 / 100) 50, 0, 0, 0.15, 0⟩ 2).targetRenderRate =
      (update_adaptive_parameters ⟨constSpaced 0 (1 / 100) 50, 0, 0, 0.15, 0⟩ 2).detectedDataRate
        * 2.5 := by
  have h1 : (2 : ℚ) ≤ 2 - (0 : ℚ) := by norm_num
  have h2 : 0 < detect_data_rate (constSpaced 0 (1 / 100) 50) := by
    rw [(adaptive_rate_estimation.1 0).1]
    norm_num
  exact ⟨h1, h2, (adaptive_rate_estimation.2.2 ⟨constSpaced 0 (1 / 100) 50, 0, 0, 0.15, 0⟩ 2
    h1 h2).1⟩

/-- Whitespace bytes stripped by Python str.strip. -/
def isSpaceB (c : ℕ) : Bool :=
  c == 32 || c == 9 || c == 10 || c == 13 || c == 11 || c == 12

/-- Strip leading and trailing whitespace. -/
def stripWS (l : List ℕ) : List ℕ :=
  ((l.dropWhile isSpaceB).reverse.dropWhile isSpaceB).reverse

/-- Newline normalization of the ASCII decoder: a CRLF pair becomes one
LF, a lone CR becomes LF. -/
def normNL : List ℕ → List ℕ
  | [] => []
  | 13 :: 10 :: t => 10 :: normNL t
  | 13 :: t => 10 :: normNL t
  | c :: t => c :: normNL t

/-- Lowercase an ASCII letter byte. -/
def toLowerB (c : ℕ) : ℕ := if 65 ≤ c ∧ c ≤ 90 then c + 32 else c

/-- Digit string to a natural number; fails on empty input or any
non-digit byte. -/
def digitsVal (l : List ℕ) : Option ℕ :=
  if l.isEmpty then none
  else l.foldl (fun acc c =>
    acc.bind fun n => if 48 ≤ c ∧ c ≤ 57 then some (n * 10 + (c - 48)) else none) (some 0)

/-- Split a byte string on a separator byte (Python str.split with an
explicit separator: no empty-string collapsing, an empty input gives
one empty field). -/
def splitB (sep : ℕ) : List ℕ → List (List ℕ)
  | [] => [[]]
  | c :: t =>
    let r := splitB sep t
    if c = sep then [] :: r
    else
      match r with
      | h :: t2 => (c :: h) :: t2
      | [] => [[c]]

/-- Mantissa of a decimal literal: digits with an optional decimal
point, exact rational value. -/
def parseMantissa (m : List ℕ) : Option ℚ :=
  match splitB 46 m with
  | [ip] => (digitsVal ip).map fun n => (n : ℚ)
  | [ip, fp] => (digitsVal (ip ++ fp)).map fun n => (n : ℚ) / 10 ^ fp.length
  | _ => none

/-- Optional exponent part after e or E. -/
def parseExpPart (e : List ℕ) : Option ℤ :=
  match e with
  | 43 :: t => (digitsVal t).map fun n => (n : ℤ)
  | 45 :: t => (digitsVal t).map fun n => -(n : ℤ)
  | _ => (digitsVal e).map fun n => (n : ℤ)

/-- Model of the Python float builtin on a stripped ASCII byte string:
optional sign, then inf, infinity or nan (case-insensitive), or a
decimal literal with optional fraction and exponent.  Decimal values
are exact rationals (the real semantics of the parsed double). -/
def parse_float (s0 : List ℕ) : Option FloatVal :=
  let s := stripWS s0
  if s.isEmpty then none
  else
    let signed : ℚ × List ℕ :=
      match s with
      | 43 :: t => (1, t)
      | 45 :: t => (-1, t)
      | _ => (1, s)
    let sgn := signed.1
    let s1 := signed.2
    let ls := s1.map toLowerB
    if ls = [105, 110, 102] ∨ ls = [105, 110, 102, 105, 110, 105, 116, 121] then
      some (if sgn = 1 then .posInf else .negInf)
    else if ls = [110, 97, 110] then some .nan
    else
      let s2 := s1.map fun c => if c = 69 then 101 else c
      match splitB 101 s2 with
      | [m] => (parseMantissa m).map fun v => .finite (sgn * v)
      | [m, ex] =>
        (parseMantissa m).bind fun v =>
          (parseExpPart ex).map fun p => .finite (sgn * v * (10 : ℚ) ^ p)
      | _ => none

/-- One complete text line of the ASCII decoder: strip, skip when
empty, split on commas, require at least four fields, parse the first
four as floats (extra fields are ignored); any parse failure drops the
line. -/
def parse_ascii_line (line : List ℕ) : Option RawQuat :=
  let l := stripWS line
  if l.isEmpty then none
  else
    let parts := splitB 44 l
    if 4 ≤ parts.length then
      match parse_float (parts.getD 0 []), parse_float (parts.getD 1 []),
          parse_float (parts.getD 2 []), parse_float (parts.getD 3 []) with
      | some w, some x, some y, some z => some ⟨w, x, y, z⟩
      | _, _, _, _ => none
    else none

/-- Source _parse_ascii_quaternion: append the new bytes to the
carryover buffer, decode as ASCII ignoring non-ASCII bytes, normalize
newlines, split into lines, parse every complete line, keep the final
(possibly incomplete) line as the new carryover, and cap the carryover
at 1000 bytes by trimming to the most recent 500.  Returns the decoded
candidates and the new carryover buffer. -/
def parse_ascii_quaternion (buf data : List ℕ) : List RawQuat × List ℕ :=
  let text := normNL ((buf ++ data).filter fun c => c < 128)
  let lines := splitB 10 text
  let complete := lines.dropLast
  let incomplete := lines.getLastD []
  let quats := complete.filterMap parse_ascii_line
  let nb := if 1000 < incomplete.length then incomplete.drop (incomplete.length - 500)
    else incomplete
  (quats, nb)

/-- First call payload of the re-framing test: the bytes of
1,0,0,0 newline 0,1, (a complete line and the head of a split line). -/
def asciiPart1 : List ℕ := [49, 44, 48, 44, 48, 44, 48, 10, 48, 44, 49, 44]

/-- Second call payload: the bytes of 0,0 newline (the tail of the
split line). -/
def asciiPart2 : List ℕ := [48, 44, 48, 10]

/-- Evaluation of the complete line 1,0,0,0. -/
theorem ascii_line1_eval : parse_ascii_line [49, 44, 48, 44, 48, 44, 48] =
    some ⟨.finite 1, .finite 0, .finite 0, .finite 0⟩ := by
  norm_num [parse_ascii_line, stripWS, isSpaceB, splitB, parse_float, parseMantissa,
    parseExpPart, digitsVal, toLowerB]

/-- Evaluation of the complete line 0,1,0,0. -/
theorem ascii_line2_eval : parse_ascii_line [48, 44, 49, 44, 48, 44, 48] =
    some ⟨.finite 0, .finite 1, .finite 0, .finite 0⟩ := by
  norm_num [parse_ascii_line, stripWS, isSpaceB, splitB, parse_float, parseMantissa,
    parseExpPart, digitsVal, toLowerB]

/-- Claim C4: ASCII decoding is invariant under re-framing.  Feeding
the two payloads across two calls (threading the carryover buffer)
produces the same two quaternions and the same final carryover as
feeding their concatenation in one call, and in general a call on a
carryover buffer behaves exactly as a fresh call on the carryover
prepended to the new input. -/
theorem ascii_reframing :
    ((parse_ascii_quaternion [] asciiPart1).1 ++
        (parse_ascii_quaternion (parse_ascii_quaternion [] asciiPart1).2 asciiPart2).1 =
      (parse_ascii_quaternion [] (asciiPart1 ++ asciiPart2)).1) ∧
    ((parse_ascii_quaternion (parse_ascii_quaternion [] asciiPart1).2 asciiPart2).2 =
      (parse_ascii_quaternion [] (asciiPart1 ++ asciiPart2)).2) ∧
    ((parse_ascii_quaternion [] (asciiPart1 ++ asciiPart2)).1 =
      [⟨.finite 1, .finite 0, .finite 0, .finite 0⟩,
       ⟨.finite 0, .finite 1, .finite 0, .finite 0⟩]) ∧
    (∀ buf d, parse_ascii_quaternion buf d = parse_ascii_quaternion [] (buf ++ d)) := by
  have h1 : parse_ascii_quaternion [] asciiPart1 =
      ([⟨.finite 1, .finite 0, .finite 0, .finite 0⟩], [48, 44, 49, 44]) := by
    norm_num [parse_ascii_quaternion, asciiPart1, normNL, splitB, ascii_line1_eval,
      List.filterMap_cons, List.filterMap_nil]
  have h2 : parse_ascii_quaternion [48, 44, 49, 44] asciiPart2 =
      ([⟨.finite 0, .finite 1, .finite 0, .finite 0⟩], []) := by
    norm_num [parse_ascii_quaternion, asciiPart2, normNL, splitB, ascii_line2_eval,
      List.filterMap_cons, List.filterMap_nil]
  have h3 : parse_ascii_quaternion [] (asciiPart1 ++ asciiPart2) =
      ([⟨.finite 1, .finite 0, .finite 0, .finite 0⟩,
        ⟨.finite 0, .finite 1, .finite 0, .finite 0⟩], []) := by
    norm_num [parse_ascii_quaternion, asciiPart1, asciiPart2, normNL, splitB,
      ascii_line1_eval, ascii_line2_eval, List.filterMap_cons, List.filterMap_nil]
  refine ⟨?_, ?_, ?_, fun buf d => ?_⟩
  · simp [h1, h2, h3]
  · simp [h1, h2, h3]
  · simp [h3]
  · unfold parse_ascii_quaternion
    simp

open scoped Classical

noncomputable section

/-- State of the complementary filter (source ComplementaryFilter):
configuration weights, the previous output, bounded histories, the
reference quaternion and the periodic counters.  Wall-clock fields are
replaced by an explicit dt argument to the filter step. -/
structure CFState where
  alpha : ℝ
  gyroWeight : ℝ
  filteredQuaternion : Option QuatR
  initialized : Bool
  quaternionHistory : List QuatR
  driftHistory : List ℝ
  referenceQuaternion : Option QuatR
  referenceCounter : ℕ
  resetCounter : ℕ
  filterCount : ℕ
  driftCorrectionsApplied : ℕ
  totalDriftCorrection : ℝ

/-- Freshly constructed filter state. -/
def CFState.init (alpha gyroWeight : ℝ) : CFState :=
  ⟨alpha, gyroWeight, none, false, [], [], none, 0, 0, 0, 0, 0⟩

/-- Append to a bounded deque: drop the oldest entries when the
capacity is exceeded. -/
def pushBounded {α : Type} (cap : ℕ) (l : List α) (a : α) : List α :=
  let l2 := l ++ [a]
  if cap < l2.length then l2.drop (l2.length - cap) else l2

/-- Mean of a list of reals (numpy mean). -/
def listMeanR (l : List ℝ) : ℝ := l.sum / l.length

/-- Population variance of a list of reals (numpy var). -/
def listVarR (l : List ℝ) : ℝ :=
  ((l.map fun v => (v - listMeanR l) ^ 2).sum) / l.length

/-- Identity quaternion. -/
def idQuatR : QuatR := ⟨1, 0, 0, 0⟩

/-- Zero quaternion (degenerate zero-norm input). -/
def zeroQuatR : QuatR := ⟨0, 0, 0, 0⟩

/-- Quaternion product (source _quaternion_multiply). -/
def quat_multiply (q1 q2 : QuatR) : QuatR :=
  ⟨q1.w * q2.w - q1.x * q2.x - q1.y * q2.y - q1.z * q2.z,
   q1.w * q2.x + q1.x * q2.w + q1.y * q2.z - q1.z * q2.y,
   q1.w * q2.y - q1.x * q2.z + q1.y * q2.w + q1.z * q2.x,
   q1.w * q2.z + q1.x * q2.y - q1.y * q2.x + q1.z * q2.w⟩

/-- Componentwise dot product of two quaternions. -/
def quat_dot (q1 q2 : QuatR) : ℝ :=
  q1.w * q2.w + q1.x * q2.x + q1.y * q2.y + q1.z * q2.z

/-- Source _quaternion_slerp: shortest-path sign flip, linear blend
with renormalization when the quaternions are nearly parallel,
spherical interpolation otherwise. -/
def quat_slerp (q1 q2 : QuatR) (t : ℝ) : QuatR :=
  let dot0 := quat_dot q1 q2
  let q2b := if dot0 < 0 then (⟨-q2.w, -q2.x, -q2.y, -q2.z⟩ : QuatR) else q2
  let dot := if dot0 < 0 then -dot0 else dot0
  if 0.9995 < dot then
    quat_normalize ⟨q1.w + t * (q2b.w - q1.w), q1.x + t * (q2b.x - q1.x),
                    q1.y + t * (q2b.y - q1.y), q1.z + t * (q2b.z - q1.z)⟩
  else
    let theta0 := Real.arccos |dot|
    let sinTheta0 := Real.sin theta0
    let theta := theta0 * t
    let sinTheta := Real.sin theta
    let s0 := Real.cos theta - dot * sinTheta / sinTheta0
    let s1 := sinTheta / sinTheta0
    quat_normalize ⟨s0 * q1.w + s1 * q2b.w, s0 * q1.x + s1 * q2b.x,
                    s0 * q1.y + s1 * q2b.y, s0 * q1.z + s1 * q2b.z⟩

/-- Source _quaternion_angle_difference: 2 arccos of the clamped
absolute dot product. -/
def quat_angle_difference (q1 q2 : QuatR) : ℝ :=
  2 * Real.arccos (min 1 |quat_dot q1 q2|)

/-- Source _euler_to_quaternion. -/
def euler_to_quaternion (roll pitch yaw : ℝ) : QuatR :=
  let cr := Real.cos (roll * 0.5)
  let sr := Real.sin (roll * 0.5)
  let cp := Real.cos (pitch * 0.5)
  let sp := Real.sin (pitch * 0.5)
  let cy := Real.cos (yaw * 0.5)
  let sy := Real.sin (yaw * 0.5)
  ⟨cr * cp * cy + sr * sp * sy,
   sr * cp * cy - cr * sp * sy,
   cr * sp * cy + sr * cp * sy,
   cr * cp * sy - sr * sp * cy⟩

/-- Two-argument arctangent (math.atan2, real semantics; signed zeros
are not modelled). -/
def atan2 (yv xv : ℝ) : ℝ :=
  if 0 < xv then Real.arctan (yv / xv)
  else if xv < 0 then
    (if 0 ≤ yv then Real.arctan (yv / xv) + Real.pi else Real.arctan (yv / xv) - Real.pi)
  else if 0 < yv then Real.pi / 2
  else if yv < 0 then -(Real.pi / 2)
  else 0

/-- Source Quaternion.to_euler_angles: normalize, then roll and yaw by
atan2 and pitch by arcsin with a clamp to plus or minus 90 degrees
(math.copysign on the out-of-range sine). -/
def to_euler_angles (q : QuatR) : ℝ × ℝ × ℝ :=
  let n := Real.sqrt (magSqR q)
  let w := if 0 < n then q.w / n else q.w
  let x := if 0 < n then q.x / n else q.x
  let y := if 0 < n then q.y / n else q.y
  let z := if 0 < n then q.z / n else q.z
  let roll := atan2 (2 * (w * x + y * z)) (1 - 2 * (x * x + y * y))
  let sinp := 2 * (w * y - z * x)
  let pitch :=
    if 1 ≤ |sinp| then (if sinp < 0 then -(Real.pi / 2) else Real.pi / 2)
    else Real.arcsin sinp
  let yaw := atan2 (2 * (w * z + x * y)) (1 - 2 * (y * y + z * z))
  (roll, pitch, yaw)

/-- Wrap an angle difference across the plus or minus 180 degree
boundary. -/
def wrapAngle (d : ℝ) : ℝ :=
  if Real.pi < d then d - 2 * Real.pi
  else if d < -Real.pi then d + 2 * Real.pi
  else d

/-- Source _calculate_drift_correction. -/
def calculate_drift_correction (st : CFState) (raw : QuatR) : ℝ :=
  if st.quaternionHistory.length < 3 then 0
  else
    let recent := lastN 3 st.quaternionHistory
    let changes := pairDiffs quat_angle_difference recent
    if changes.length = 0 then 0
    else
      let avg := listMeanR changes
      let cur := quat_angle_difference (st.filteredQuaternion.getD idQuatR) raw
      if avg * 2 < cur then (cur - avg) * 0.1 else 0

/-- Source _apply_drift_correction: scale the vector part by a clamped
factor and renormalize. -/
def apply_drift_correction (q : QuatR) (corr dt : ℝ) : QuatR :=
  let cf := max 0.9 (min 1.1 (1 - corr * dt * 0.1))
  quat_normalize ⟨q.w, q.x * cf, q.y * cf, q.z * cf⟩

/-- Source _simplified_complementary_filter: SLERP the previous output
toward the raw sample with weight 1 - alpha, then apply the drift
correction when it exceeds the threshold. -/
def simplified_complementary_filter (st : CFState) (raw : QuatR) (dt : ℝ) : QuatR × CFState :=
  let f := quat_slerp (st.filteredQuaternion.getD idQuatR) raw (1 - st.alpha)
  let c := calculate_drift_correction st raw
  if 0.001 < |c| then
    (apply_drift_correction f c dt,
     { st with totalDriftCorrection := st.totalDriftCorrection + |c| })
  else (f, st)

/-- Source _integrate_gyroscope. -/
def integrate_gyroscope (cur : QuatR) (gx gy gz dt : ℝ) : QuatR :=
  quat_normalize (quat_multiply cur ⟨0, gx * dt * 0.5, gy * dt * 0.5, gz * dt * 0.5⟩)

/-- Source _estimate_from_accelerometer. -/
def estimate_from_accelerometer (ax ay az : ℝ) : QuatR :=
  let n := Real.sqrt (ax * ax + ay * ay + az * az)
  if n = 0 then idQuatR
  else
    let ax1 := ax / n
    let ay1 := ay / n
    let az1 := az / n
    euler_to_quaternion (atan2 ay1 az1)
      (atan2 (-ax1) (Real.sqrt (ay1 * ay1 + az1 * az1))) 0

/-- Source _full_complementary_filter: SLERP the accelerometer
estimate toward the gyroscope integration with the gyro weight.  The
raw quaternion argument of the source is unused there as well. -/
def full_complementary_filter (st : CFState) (gyro accel : ℝ × ℝ × ℝ) (dt : ℝ) : QuatR :=
  let gq := integrate_gyroscope (st.filteredQuaternion.getD idQuatR) gyro.1 gyro.2.1 gyro.2.2 dt
  let aq := estimate_from_accelerometer accel.1 accel.2.1 accel.2.2
  quat_slerp aq gq st.gyroWeight

/-- Source _correct_drift: SLERP toward the reference on a large
deviation, otherwise decay the vector part; without a reference the
quaternion passes through unchanged. -/
def correct_drift (st : CFState) (q : QuatR) (driftMag dt : ℝ) : QuatR :=
  match st.referenceQuaternion with
  | none => q
  | some ref =>
    let dev := quat_angle_difference ref q
    if 0.0001 * 2 < dev then quat_slerp q ref (0.5 * dt)
    else
      let decay := max 0.95 (min 1 (1 - driftMag * 0.5 * dt))
      quat_normalize ⟨q.w, q.x * decay, q.y * decay, q.z * decay⟩

/-- Source _apply_drift_suppression with _detect_drift inlined (the
detection appends the current change to the drift history, then flags
drift when its recent mean is above the threshold, its variance low
and the current change above 1.5 times the recent average). -/
def apply_drift_suppression (st : CFState) (q : QuatR) (dt : ℝ) : QuatR × CFState :=
  if st.initialized = false ∨ st.quaternionHistory.length < 5 then (q, st)
  else if st.quaternionHistory.length < 10 then (q, st)
  else
    let recent := lastN 5 st.quaternionHistory
    let totalChange := (pairDiffs quat_angle_difference recent).sum
    let avgChange := if 1 < recent.length then totalChange / ((recent.length : ℝ) - 1) else 0
    let cur := quat_angle_difference (st.quaternionHistory.getLastD idQuatR) q
    let st1 := { st with driftHistory := pushBounded 20 st.driftHistory cur }
    if 20 ≤ st1.driftHistory.length then
      let recent10 := lastN 10 st1.driftHistory
      let dv := listVarR recent10
      let dm := listMeanR recent10
      if 0.0001 < dm ∧ dv < 0.0001 * 0.5 ∧ avgChange * 1.5 < cur then
        (correct_drift st1 q dm dt,
         { st1 with driftCorrectionsApplied := st1.driftCorrectionsApplied + 1,
                    totalDriftCorrection := st1.totalDriftCorrection + dm })
      else (q, st1)
    else (q, st1)

/-- Source _apply_roll_drift_suppression: when the recent roll change
is below the roll threshold (slow persistent motion) and the deviation
from the reference roll exceeds the threshold, subtract a fraction
(strength 0.8 times dt) of the deviation from roll only and rebuild
the quaternion. -/
def apply_roll_drift_suppression (st : CFState) (q : QuatR) (dt : ℝ) : QuatR :=
  if st.initialized = false ∨ st.quaternionHistory.length < 5 then q
  else
    let e := to_euler_angles q
    if 3 ≤ st.quaternionHistory.length then
      let recent := lastN 3 st.quaternionHistory
      let rollChanges := pairDiffs
        (fun a b => |wrapAngle ((to_euler_angles b).1 - (to_euler_angles a).1)|) recent
      if rollChanges.length = 0 then q
      else
        let avg := listMeanR rollChanges
        if avg < 0.1 * (Real.pi / 180) then
          match st.referenceQuaternion with
          | some ref =>
            let drift := wrapAngle (e.1 - (to_euler_angles ref).1)
            if 0.1 * (Real.pi / 180) < |drift| then
              euler_to_quaternion (e.1 - drift * 0.8 * dt) e.2.1 e.2.2
            else q
          | none => q
        else q
    else q

/-- Source _apply_yaw_drift_suppression (yaw analogue with threshold
0.3 degrees and strength 0.6). -/
def apply_yaw_drift_suppression (st : CFState) (q : QuatR) (dt : ℝ) : QuatR :=
  if st.initialized = false ∨ st.quaternionHistory.length < 10 then q
  else
    let e := to_euler_angles q
    if 5 ≤ st.quaternionHistory.length then
      let recent := lastN 5 st.quaternionHistory
      let yawChanges := pairDiffs
        (fun a b => |wrapAngle ((to_euler_angles b).2.2 - (to_euler_angles a).2.2)|) recent
      if yawChanges.length = 0 then q
      else
        let avg := listMeanR yawChanges
        if avg < 0.3 * (Real.pi / 180) ∧ 3 ≤ yawChanges.length then
          match st.referenceQuaternion with
          | some ref =>
            let drift := wrapAngle (e.2.2 - (to_euler_angles ref).2.2)
            if 0.3 * (Real.pi / 180) < |drift| then
              euler_to_quaternion e.1 e.2.1 (e.2.2 - drift * 0.6 * dt)
            else q
          | none => q
        else q
    else q

/-- Source _check_periodic_reset: every 1000 samples replace the
reference quaternion with the current value. -/
def check_periodic_reset (st : CFState) (q : QuatR) : QuatR × CFState :=
  let st1 := { st with resetCounter := st.resetCounter + 1 }
  if 1000 ≤ st1.resetCounter then
    (q, { st1 with referenceQuaternion := some q, resetCounter := 0 })
  else (q, st1)

/-- Source _apply_moving_average: weighted average of the most recent
up-to-4 history entries (weights increasing toward the newest,
truncated from the front when fewer entries exist), renormalized.  The
history is nonempty whenever this runs. -/
def apply_moving_average (hist : List QuatR) : QuatR :=
  if hist.length < 2 then hist.getLastD idQuatR
  else
    let quats := lastN 4 hist
    let ws := lastN quats.length [(0.1 : ℝ), 0.2, 0.3, 0.4]
    let wsum := ws.sum
    let wn := ws.map fun v => v / wsum
    quat_normalize ⟨(List.zipWith (fun (q : QuatR) v => q.w * v) quats wn).sum,
                    (List.zipWith (fun (q : QuatR) v => q.x * v) quats wn).sum,
                    (List.zipWith (fun (q : QuatR) v => q.y * v) quats wn).sum,
                    (List.zipWith (fun (q : QuatR) v => q.z * v) quats wn).sum⟩

/-- Source _update_reference_quaternion: adopt the first value as the
reference; afterwards, every 50 samples and only when the recent drift
variance is low, nudge the reference toward the current output by a
1 percent SLERP step. -/
def update_reference_quaternion (st : CFState) (q : QuatR) : CFState :=
  let st1 := { st with referenceCounter := st.referenceCounter + 1 }
  match st1.referenceQuaternion with
  | none => { st1 with referenceQuaternion := some q }
  | some ref =>
    if 50 ≤ st1.referenceCounter then
      let st2 :=
        if 10 ≤ st1.driftHistory.length ∧
            listVarR (lastN 10 st1.driftHistory) < 0.0001 * 0.1 then
          { st1 with referenceQuaternion := some (quat_slerp ref q 0.01) }
        else st1
      { st2 with referenceCounter := 0 }
    else st1

/-- Source ComplementaryFilter.filter_quaternion.  The raw input is
normalized first; an uninitialized filter adopts it as output, history
seed and state and returns it; otherwise the base fusion (full with
inertial data, simplified without), the drift suppressions, the
periodic reset, the history push, the moving-average smoothing and the
reference update run in source order.  dt is explicit (the source
derives it from the wall clock when absent). -/
def filter_quaternion (st : CFState) (raw : QuatR)
    (gyro accel : Option (ℝ × ℝ × ℝ)) (dt : ℝ) : QuatR × CFState :=
  let raw1 := quat_normalize raw
  if st.initialized = false then
    (raw1, { st with filteredQuaternion := some raw1, initialized := true,
                     quaternionHistory := pushBounded 10 st.quaternionHistory raw1 })
  else
    let fs1 : QuatR × CFState :=
      match gyro, accel with
      | some g, some a => (full_complementary_filter st g a dt, st)
      | _, _ => simplified_complementary_filter st raw1 dt
    let ds := apply_drift_suppression fs1.2 fs1.1 dt
    let rc := apply_roll_drift_suppression ds.2 ds.1 dt
    let yc := apply_yaw_drift_suppression ds.2 rc dt
    let pr := check_periodic_reset ds.2 yc
    let st4 := { pr.2 with quaternionHistory := pushBounded 10 pr.2.quaternionHistory pr.1 }
    let smoothed := apply_moving_average st4.quaternionHistory
    let st5 := update_reference_quaternion st4 smoothed
    (smoothed, { st5 with filteredQuaternion := some smoothed,
                          filterCount := st5.filterCount + 1 })

end

/-- Normalizing an exactly unit quaternion leaves it unchanged. -/
theorem quat_normalize_of_magSq_one {q : QuatR} (h : magSqR q = 1) :
    quat_normalize q = q := by
  unfold quat_normalize
  rw [h, Real.sqrt_one]
  norm_num

/-- Normalizing the zero quaternion leaves it unchanged (the guard
against division by zero). -/
theorem quat_normalize_zero : quat_normalize zeroQuatR = zeroQuatR := by
  unfold quat_normalize zeroQuatR magSqR
  norm_num

/-- The magnitude-1.05 candidate: it passes validation (deviation 0.05,
well inside the 0.1 tolerance, also in binary64 arithmetic) but is not
unit-norm. -/
def rawq105 : RawQuat := ⟨.finite (21 / 20), .finite 0, .finite 0, .finite 0⟩

/-- Claim C2 (amended): the first call on a freshly constructed filter
with a unit-norm quaternion returns it unchanged, adopts it as the
output state and the sole history entry, and transitions the filter to
initialized.  (A merely valid, non-unit input is first normalized, so
it is not returned verbatim; see the counterexample.) -/
theorem filter_first_call_seed (alpha gw dt : ℝ) (gyro accel : Option (ℝ × ℝ × ℝ))
    (q : QuatR) (h : magSqR q = 1) :
    filter_quaternion (CFState.init alpha gw) q gyro accel dt =
      (q, { CFState.init alpha gw with
              filteredQuaternion := some q, initialized := true,
              quaternionHistory := [q] }) := by
  unfold filter_quaternion
  rw [quat_normalize_of_magSq_one h]
  simp [CFState.init, pushBounded]

/-- Witness for the amended C2 at the unit quaternion. -/
theorem filter_first_call_seed_witness :
    magSqR idQuatR = 1 ∧
    filter_quaternion (CFState.init 0.65 0.55) idQuatR none none 0.02 =
      (idQuatR, { CFState.init 0.65 0.55 with
                    filteredQuaternion := some idQuatR, initialized := true,
                    quaternionHistory := [idQuatR] }) := by
  have h : magSqR idQuatR = 1 := by norm_num [magSqR, idQuatR]
  exact ⟨h, filter_first_call_seed 0.65 0.55 0.02 none none idQuatR h⟩

/-- Counterexample for C2: the quaternion (1.05, 0, 0, 0) passes
validation (magnitude deviation 0.05, well inside the tolerance), but
the first call of a fresh filter returns its normalization
(1, 0, 0, 0), not the input itself. -/
theorem filter_first_call_changes_valid_input :
    validate_quaternion rawq105 ∧
    (filter_quaternion (CFState.init 0.65 0.55) (toQuatR rawq105) none none 0.02).1 ≠
      toQuatR rawq105 := by
  have hv : validate_quaternion rawq105 := by
    rw [validate_quaternion_iff]
    norm_num [rawq105, RawQuat.allFinite, RawQuat.magSq, FloatVal.isFinite, FloatVal.toRat]
  have hmag : magSqR (toQuatR rawq105) = ((21 : ℝ) / 20) ^ 2 := by
    norm_num [magSqR, toQuatR, rawq105, FloatVal.toRat]
  have hsqrt : Real.sqrt (magSqR (toQuatR rawq105)) = 21 / 20 := by
    rw [hmag, Real.sqrt_sq (by norm_num : (0 : ℝ) ≤ 21 / 20)]
  have hout : (filter_quaternion (CFState.init 0.65 0.55) (toQuatR rawq105) none none 0.02).1 =
      idQuatR := by
    unfold filter_quaternion quat_normalize
    rw [hsqrt]
    norm_num [CFState.init, idQuatR, toQuatR, rawq105, FloatVal.toRat]
  refine ⟨hv, ?_⟩
  rw [hout]
  intro hcontra
  have hw := congrArg QuatR.w hcontra
  norm_num [idQuatR, toQuatR, rawq105, FloatVal.toRat] at hw

/-- Claim C8 (amended): a zero-norm input leaves normalization
unchanged (the positive-norm guard prevents the division), and the
first call of an uninitialized filter returns the zero input itself,
which is neither the identity quaternion nor any previous output. -/
theorem filter_zero_norm_first_call (alpha gw dt : ℝ) (gyro accel : Option (ℝ × ℝ × ℝ)) :
    quat_normalize zeroQuatR = zeroQuatR ∧
    (filter_quaternion (CFState.init alpha gw) zeroQuatR gyro accel dt).1 = zeroQuatR := by
  refine ⟨quat_normalize_zero, ?_⟩
  unfold filter_quaternion
  rw [quat_normalize_zero]
  simp [CFState.init]

/-- Counterexample for C8: on a fresh (uninitialized) filter a
zero-norm input is returned as the zero quaternion, which is neither
the identity quaternion nor a previous filtered output (none exists),
contradicting the claimed fallback. -/
theorem filter_zero_norm_not_id_or_prev :
    ¬ ((filter_quaternion (CFState.init 0.65 0.55) zeroQuatR none none 0.02).1 = idQuatR ∨
       ∃ p, (CFState.init 0.65 0.55).filteredQuaternion = some p ∧
         (filter_quaternion (CFState.init 0.65 0.55) zeroQuatR none none 0.02).1 = p) := by
  have hout : (filter_quaternion (CFState.init 0.65 0.55) zeroQuatR none none 0.02).1 =
      zeroQuatR := by
    unfold filter_quaternion
    rw [quat_normalize_zero]
    simp [CFState.init]
  rintro (h | ⟨p, hp, -⟩)
  · rw [hout] at h
    have hw := congrArg QuatR.w h
    norm_num [zeroQuatR, idQuatR] at hw
  · simp [CFState.init] at hp
